import Mathlib

/-!
# A shallow embedding of the `sched` package

`sched` (src/sched.go) periodically benchmarks the Go scheduler, stores the
measurements in a fixed circular buffer of 100 samples, and warns through a
user-supplied sink when a recent sample exceeded configurable thresholds.

Modelling conventions:
* `time.Duration` (an int64 nanosecond count) is modelled as `Int`.
* `time.Time` is modelled by its nanosecond value as `Int`; the zero value
  (`IsZero`) is `0`.  Slots of the sample array that were never written hold
  the zero `sample`, whose `start` is `0`.
* The four package-level threshold variables are mutable configuration read
  at each use; they are modelled as a `Thresholds` record passed to every
  function that reads them, so that a render or a tick sees the values the
  variables hold at that moment.
* The sampling loop `collectSampleLoop` is a single goroutine multiplexing
  two event sources (ticker, `checkChan`); it is modelled as a transition
  function over its local state (`bad` flag plus the shared buffer), driven
  by an explicit event list.  Wall-clock measurement itself (the probe
  bodies) produces the `sample` values carried by tick events.
-/

namespace Sched

/-- `type sample struct` (src/sched.go): one measurement pass.  `start` is
the `time.Time` the pass began; the four other fields are the measured
durations. -/
structure Sample where
  start : Int
  oversleep : Int
  bufSend : Int
  pingPong : Int
  chain : Int
deriving DecidableEq, Repr

/-- The zero value of `sample`: the content of a never-written array slot.
Its `start` is zero (`time.Time.IsZero`). -/
def zeroSample : Sample := ⟨0, 0, 0, 0, 0⟩

/-- The four package-level threshold variables
(`OversleepThreshold`, `ChanSendThreshold`, `PingPongThreshold`,
`ChainThreshold`), src/sched.go lines 19-24. -/
structure Thresholds where
  OversleepThreshold : Int
  ChanSendThreshold : Int
  PingPongThreshold : Int
  ChainThreshold : Int
deriving DecidableEq, Repr

/-- The initial values of the threshold variables, in nanoseconds:
10µs, 10µs, 10µs, 100µs. -/
def defaultThresholds : Thresholds :=
  ⟨10 * 1000, 10 * 1000, 10 * 1000, 100 * 1000⟩

/-- `historySize = 100` (src/sched.go line 48). -/
def historySize : Nat := 100

/-- `numChainRoutines = 20` (src/sched.go line 49). -/
def numChainRoutines : Nat := 20

/-- `overThreshold` (src/sched.go lines 109-114): a sample is over
threshold when any of its four duration fields strictly exceeds the
corresponding threshold variable. -/
def overThreshold (t : Thresholds) (s : Sample) : Bool :=
  decide (s.oversleep > t.OversleepThreshold) ||
  decide (s.bufSend > t.ChanSendThreshold) ||
  decide (s.pingPong > t.PingPongThreshold) ||
  decide (s.chain > t.ChainThreshold)

/-- The shared history buffer: the package variables `nextIndex` and
`samples [historySize]sample` (src/sched.go lines 53-57), the state the
mutex `mu` protects. -/
structure BufferState where
  nextIndex : Nat
  samples : List Sample
deriving DecidableEq, Repr

/-- The buffer at process start: `nextIndex = 0`, every slot the zero
sample. -/
def initState : BufferState := ⟨0, List.replicate historySize zeroSample⟩

/-- The buffer mutation performed under the lock at the end of
`collectSample` (src/sched.go lines 143-148): write the sample at the
cursor, advance the cursor modulo `historySize`. -/
def record (s : Sample) (b : BufferState) : BufferState :=
  { nextIndex := (b.nextIndex + 1) % historySize
    samples := b.samples.set b.nextIndex s }

/-- Record a list of samples in order, oldest first. -/
def recordAll (L : List Sample) (b : BufferState) : BufferState :=
  L.foldl (fun b s => record s b) b

/-- One backward step of the render loop's index: `idx--; if idx < 0 then
idx = historySize - 1` (src/sched.go lines 168-171). -/
def prevIndex (idx : Nat) : Nat :=
  if idx = 0 then historySize - 1 else idx - 1

/-- The walk of `Samples` (src/sched.go lines 166-185): starting just
before `idx`, walk backward up to `fuel` slots, stopping at the first slot
whose `start` is zero, and return the samples visited, most recent
first. -/
def renderWalk (samples : List Sample) : Nat → Nat → List Sample
  | _, 0 => []
  | idx, n + 1 =>
    if (samples.getD (prevIndex idx) zeroSample).start = 0 then []
    else
      samples.getD (prevIndex idx) zeroSample ::
        renderWalk samples (prevIndex idx) n

/-- The list of samples a render of buffer `b` emits, most recent first:
the walk of `Samples` starting at `nextIndex` with `historySize` steps of
fuel. -/
def renderList (b : BufferState) : List Sample :=
  renderWalk b.samples b.nextIndex historySize

/-- One output row of `Samples` (src/sched.go lines 177-184): the sample
shown together with the trailing highlight string, `" <---"` when the
sample is over threshold and `""` otherwise.  The fixed-width numeric
columns, which depend on the render-time clock, are abstracted: the row
keeps the full sample they are formatted from. -/
def renderRow (t : Thresholds) (s : Sample) : Sample × String :=
  (s, if overThreshold t s then " <---" else "")

/-- The rows of the table `Samples` returns (src/sched.go lines 160-187),
below the header: one row per sample of the render walk, most recent
first, each with its highlight string. -/
def SamplesRows (t : Thresholds) (b : BufferState) : List (Sample × String) :=
  (renderList b).map (renderRow t)

/-! ## The sampling loop as a transition system

`collectSampleLoop` (src/sched.go lines 90-107) is one goroutine selecting
over the ticker and `checkChan`.  Its events: a ticker tick runs
`collectSample` (producing a sample and recording it) and sets `bad` when
the sample is over threshold; a `Check` request warns once through the
supplied sink when `bad` is set, then clears `bad`.  Each event carries
the threshold variables' values at the moment it is processed. -/

/-- An event of the sampling loop: a ticker tick (carrying the sample the
probe pass produced and the thresholds in force) or a `Check` request
(carrying the thresholds in force when `Samples` renders). -/
inductive Event where
  | tick (t : Thresholds) (s : Sample)
  | check (t : Thresholds)
deriving DecidableEq, Repr

/-- The loop's state: its local `bad` flag plus the shared buffer. -/
structure LoopState where
  bad : Bool
  buf : BufferState
deriving DecidableEq, Repr

/-- The loop's state at process start: `bad = false`, empty buffer. -/
def initLoop : LoopState := ⟨false, initState⟩

/-- One iteration of the `for { select { ... } }` of `collectSampleLoop`:
returns the successor state and the list of warning messages emitted to
the sink in this iteration (each message carries the `Samples` table it
contains). -/
def stepLoop (st : LoopState) : Event → LoopState × List (List (Sample × String))
  | .tick t s =>
    ({ bad := if overThreshold t s then true else st.bad
       buf := record s st.buf }, [])
  | .check t =>
    if st.bad then
      ({ st with bad := false }, [SamplesRows t st.buf])
    else
      (st, [])

/-- Run the loop over a list of events from a given state. -/
def runLoop (st : LoopState) (es : List Event) : LoopState :=
  es.foldl (fun st e => (stepLoop st e).1) st

/-- The events that occurred after the last `check` of a trace (the whole
trace when it has no `check`). -/
def sinceLastCheck (es : List Event) : List Event :=
  es.foldl
    (fun acc e =>
      match e with
      | .check _ => []
      | e => acc ++ [e]) []

/-- Whether an event is a tick whose sample was over threshold at the
moment it was recorded. -/
def tickOver : Event → Bool
  | .tick t s => overThreshold t s
  | .check _ => false

/-- The `bad` flag after running a trace from the initial state. -/
def badAfter (es : List Event) : Bool := (runLoop initLoop es).bad

/-! ## C4: the threshold predicate -/

/-- C4: a sample is judged over threshold iff one of its four duration
fields strictly exceeds its own threshold — and a sample whose fields
equal the thresholds exactly is not a violation. -/
theorem overThreshold_strict_iff (t : Thresholds) (s : Sample) :
    (overThreshold t s = true ↔
      (s.oversleep > t.OversleepThreshold ∨ s.bufSend > t.ChanSendThreshold ∨
       s.pingPong > t.PingPongThreshold ∨ s.chain > t.ChainThreshold)) ∧
    overThreshold t ⟨s.start, t.OversleepThreshold, t.ChanSendThreshold,
      t.PingPongThreshold, t.ChainThreshold⟩ = false := by
  constructor
  · simp [overThreshold, or_assoc]
  · simp [overThreshold]

/-! ## Helper lemmas about the circular buffer -/

lemma getD_set_ne (l : List Sample) (i j : Nat) (x d : Sample) (h : i ≠ j) :
    (l.set j x).getD i d = l.getD i d := by
  simp [List.getD, List.getElem?_set_ne (Ne.symm h)]

lemma getD_set_self (l : List Sample) (j : Nat) (x d : Sample)
    (h : j < l.length) :
    (l.set j x).getD j d = x := by
  simp [List.getD, List.getElem?_set_self', h]

lemma getD_mem (l : List Sample) (i : Nat) (d : Sample) (h : i < l.length) :
    l.getD i d ∈ l := by
  rw [List.getD_eq_getElem l d h]
  exact l.getElem_mem h

lemma prevIndex_iterate (m idx : Nat) (h : idx < historySize) :
    prevIndex^[m] idx = (idx + historySize - m % historySize) % historySize := by
  induction m with
  | zero =>
    simp only [Function.iterate_zero, id_eq, historySize] at *
    omega
  | succ m ih =>
    rw [Function.iterate_succ_apply', ih, prevIndex]
    simp only [historySize] at *
    split <;> omega

lemma renderWalk_succ (samples : List Sample) (idx n : Nat) :
    renderWalk samples idx (n + 1) =
      if (samples.getD (prevIndex idx) zeroSample).start = 0 then []
      else
        samples.getD (prevIndex idx) zeroSample ::
          renderWalk samples (prevIndex idx) n := rfl

lemma renderWalk_take (samples : List Sample) :
    ∀ (n m idx : Nat), n ≤ m →
      (renderWalk samples idx m).take n = renderWalk samples idx n := by
  intro n
  induction n with
  | zero => intro m idx _; simp [renderWalk]
  | succ n ih =>
    intro m idx hnm
    obtain ⟨m, rfl⟩ : ∃ m', m = m' + 1 := ⟨m - 1, by omega⟩
    rw [renderWalk_succ, renderWalk_succ]
    split
    · simp
    · rw [List.take_succ_cons, ih m (prevIndex idx) (by omega)]

lemma renderWalk_set (samples : List Sample) (j : Nat) (x : Sample) :
    ∀ (n idx : Nat), (∀ m, 1 ≤ m → m ≤ n → prevIndex^[m] idx ≠ j) →
      renderWalk (samples.set j x) idx n = renderWalk samples idx n := by
  intro n
  induction n with
  | zero => intro idx _; rfl
  | succ n ih =>
    intro idx hm
    have h1 : prevIndex idx ≠ j := by
      have := hm 1 le_rfl (by omega)
      rwa [Function.iterate_one] at this
    rw [renderWalk_succ, renderWalk_succ, getD_set_ne _ _ _ _ _ h1,
      ih (prevIndex idx) (fun m h1m hmn => by
        rw [← Function.iterate_succ_apply]
        exact hm (m + 1) (by omega) (by omega))]

lemma record_length (s : Sample) (b : BufferState) :
    (record s b).samples.length = b.samples.length := by
  simp [record]

lemma record_nextIndex_lt (s : Sample) (b : BufferState) :
    (record s b).nextIndex < historySize := by
  exact Nat.mod_lt _ (by norm_num [historySize])

lemma recordAll_cons (s : Sample) (L : List Sample) (b : BufferState) :
    recordAll (s :: L) b = recordAll L (record s b) := rfl

lemma recordAll_append (L : List Sample) (s : Sample) (b : BufferState) :
    recordAll (L ++ [s]) b = record s (recordAll L b) := by
  simp [recordAll, List.foldl_append]

lemma recordAll_inv (L : List Sample) (b : BufferState)
    (h1 : b.samples.length = historySize) (h2 : b.nextIndex < historySize) :
    (recordAll L b).samples.length = historySize ∧
      (recordAll L b).nextIndex < historySize := by
  induction L generalizing b with
  | nil => exact ⟨h1, h2⟩
  | cons s L ih =>
    rw [recordAll_cons]
    exact ih (record s b) (by rw [record_length, h1]) (record_nextIndex_lt s b)

lemma initState_inv :
    initState.samples.length = historySize ∧ initState.nextIndex < historySize := by
  constructor
  · simp [initState]
  · simp [initState, historySize]

lemma prevIndex_record (idx : Nat) (h : idx < historySize) :
    prevIndex ((idx + 1) % historySize) = idx := by
  simp only [prevIndex, historySize] at *
  split <;> omega

lemma renderList_record (s : Sample) (b : BufferState)
    (hs : s.start ≠ 0) (hlen : b.samples.length = historySize)
    (hidx : b.nextIndex < historySize) :
    renderList (record s b) = s :: (renderList b).take (historySize - 1) := by
  have hprev : prevIndex ((b.nextIndex + 1) % historySize) = b.nextIndex :=
    prevIndex_record b.nextIndex hidx
  have hnotin : ∀ m, 1 ≤ m → m ≤ 99 → prevIndex^[m] b.nextIndex ≠ b.nextIndex := by
    intro m h1 h2
    rw [prevIndex_iterate m b.nextIndex hidx]
    simp only [historySize] at *
    omega
  rw [renderList,
    show (record s b).samples = b.samples.set b.nextIndex s from rfl,
    show (record s b).nextIndex = (b.nextIndex + 1) % historySize from rfl,
    show renderWalk (b.samples.set b.nextIndex s)
        ((b.nextIndex + 1) % historySize) historySize
      = renderWalk (b.samples.set b.nextIndex s)
        ((b.nextIndex + 1) % historySize) (99 + 1) from rfl,
    renderWalk_succ, hprev,
    getD_set_self _ _ _ _ (by rw [hlen]; exact hidx), if_neg hs,
    renderWalk_set b.samples b.nextIndex s 99 b.nextIndex hnotin,
    renderList, show historySize - 1 = 99 from rfl,
    renderWalk_take b.samples 99 historySize b.nextIndex (by norm_num [historySize])]

lemma renderList_recordAll (L : List Sample) (h : ∀ s ∈ L, s.start ≠ 0) :
    renderList (recordAll L initState) = L.reverse.take historySize := by
  induction L using List.reverseRecOn with
  | nil => decide
  | append_singleton L s ih =>
    have hinv := recordAll_inv L initState initState_inv.1 initState_inv.2
    rw [recordAll_append,
      renderList_record s _ (h s (by simp)) hinv.1 hinv.2,
      ih (fun x hx => h x (by simp [hx])),
      List.reverse_append]
    rw [show [s].reverse ++ L.reverse = s :: L.reverse by simp,
      show historySize = 99 + 1 from rfl]
    simp only [Nat.add_sub_cancel]
    rw [List.take_succ_cons, List.take_take]
    norm_num

/-! ## C2, C3: the check protocol and the bad flag -/

lemma runLoop_append (st : LoopState) (es : List Event) (e : Event) :
    runLoop st (es ++ [e]) = (stepLoop (runLoop st es) e).1 := by
  simp [runLoop, List.foldl_append]

lemma sinceLastCheck_tick (es : List Event) (t : Thresholds) (s : Sample) :
    sinceLastCheck (es ++ [.tick t s]) = sinceLastCheck es ++ [.tick t s] := by
  simp [sinceLastCheck, List.foldl_append]

lemma sinceLastCheck_check (es : List Event) (t : Thresholds) :
    sinceLastCheck (es ++ [.check t]) = [] := by
  simp [sinceLastCheck, List.foldl_append]

lemma badAfter_eq_any (es : List Event) :
    badAfter es = (sinceLastCheck es).any tickOver := by
  induction es using List.reverseRecOn with
  | nil => rfl
  | append_singleton es e ih =>
    cases e with
    | tick t s =>
      rw [badAfter, runLoop_append, sinceLastCheck_tick]
      rw [badAfter] at ih
      cases h : overThreshold t s <;>
        simp [stepLoop, tickOver, ih, h]
    | check t =>
      rw [badAfter, runLoop_append, sinceLastCheck_check]
      cases h : (runLoop initLoop es).bad <;> simp [stepLoop, h]

/-- C2: a `check` event emits at most one warning, emits one exactly when
the `bad` flag is set, clears the flag, and an immediately repeated
`check` (no tick in between) emits nothing. -/
theorem check_warns_at_most_once (st : LoopState) (t t' : Thresholds) :
    (stepLoop st (.check t)).2.length ≤ 1 ∧
    ((stepLoop st (.check t)).2 ≠ [] ↔ st.bad = true) ∧
    ((stepLoop st (.check t)).1).bad = false ∧
    (stepLoop (stepLoop st (.check t)).1 (.check t')).2 = [] := by
  rcases st with ⟨bad, buf⟩
  cases bad <;> simp [stepLoop]

/-- C3: after any trace of tick and check events from the initial state,
the loop's `bad` flag is set iff some tick since the last check (or since
start) carried a sample that was over threshold at the moment it was
recorded. -/
theorem bad_flag_iff_over_since_check (es : List Event) :
    badAfter es = true ↔ ∃ e ∈ sinceLastCheck es, tickOver e = true := by
  rw [badAfter_eq_any, List.any_eq_true]

/-! ## C5, C7: row-count bound and exact rendering of a partial buffer -/

/-- C5: recording any sequence of samples with non-zero start timestamps
into the initially empty buffer, a render emits at most
`min (samples recorded) historySize` rows. -/
theorem render_length_le (L : List Sample) (h : ∀ s ∈ L, s.start ≠ 0) :
    (renderList (recordAll L initState)).length ≤ min L.length historySize := by
  rw [renderList_recordAll L h, List.length_take, List.length_reverse]
  omega

/-- Three concrete samples with non-zero, increasing start timestamps. -/
def wSamples : List Sample :=
  [⟨1, 0, 0, 0, 0⟩, ⟨2, 0, 0, 0, 0⟩, ⟨3, 0, 0, 0, 0⟩]

theorem render_length_le_witness :
    (∀ s ∈ wSamples, s.start ≠ 0) ∧
      (renderList (recordAll wSamples initState)).length ≤
        min wSamples.length historySize :=
  ⟨by decide, render_length_le wSamples (by decide)⟩

/-- C7: a partially filled buffer (at most `historySize` samples recorded,
each with a non-zero start) renders exactly the recorded samples, most
recent first. -/
theorem render_partial_exact (L : List Sample) (hlen : L.length ≤ historySize)
    (h : ∀ s ∈ L, s.start ≠ 0) :
    renderList (recordAll L initState) = L.reverse := by
  rw [renderList_recordAll L h]
  exact List.take_of_length_le (by simpa using hlen)

theorem render_partial_exact_witness :
    wSamples.length ≤ historySize ∧ (∀ s ∈ wSamples, s.start ≠ 0) ∧
      renderList (recordAll wSamples initState) = wSamples.reverse :=
  ⟨by decide, by decide, render_partial_exact wSamples (by decide) (by decide)⟩

/-! ## C6: wraparound overwrites the oldest samples -/

lemma renderWalk_getD (samples : List Sample) :
    ∀ (n idx m : Nat), (renderWalk samples idx n).length = n → m < n →
      (renderWalk samples idx n).getD m zeroSample =
        samples.getD (prevIndex^[m + 1] idx) zeroSample := by
  intro n
  induction n with
  | zero => intro idx m _ hm; omega
  | succ n ih =>
    intro idx m hlen hm
    rw [renderWalk_succ] at hlen ⊢
    by_cases h0 : (samples.getD (prevIndex idx) zeroSample).start = 0
    · rw [if_pos h0] at hlen
      simp at hlen
    · rw [if_neg h0] at hlen ⊢
      have hlen2 : (renderWalk samples (prevIndex idx) n).length = n := by
        simp only [List.length_cons] at hlen
        omega
      cases m with
      | zero => simp [Function.iterate_one]
      | succ m =>
        rw [List.getD_cons_succ, ih (prevIndex idx) m hlen2 (by omega),
          ← Function.iterate_succ_apply]

lemma renderWalk_covers (samples : List Sample) (idx : Nat)
    (hidx : idx < historySize)
    (hfull : (renderWalk samples idx historySize).length = historySize) :
    ∀ i, i < historySize →
      samples.getD i zeroSample ∈ renderWalk samples idx historySize := by
  intro i hi
  have hiter : prevIndex^[(idx + 99 - i) % 100 + 1] idx = i := by
    rw [prevIndex_iterate _ _ hidx]
    simp only [historySize] at *
    omega
  have hg := renderWalk_getD samples historySize idx ((idx + 99 - i) % 100) hfull
    (by simp only [historySize]; exact Nat.mod_lt _ (by norm_num))
  rw [hiter] at hg
  rw [← hg]
  refine getD_mem _ _ _ ?_
  rw [hfull]
  simp only [historySize]
  exact Nat.mod_lt _ (by norm_num)

/-- C6: once `historySize + k` samples (`k ≥ 1`, strictly increasing
non-zero start timestamps, per the sampling loop's invariant) have been
recorded, the render emits exactly the most recent `historySize` samples,
most recent first; each of the first `k` samples is absent from the render
output and from every slot of the buffer. -/
theorem wraparound_drops_oldest (L : List Sample) (k : Nat) (hk : 1 ≤ k)
    (hlen : L.length = historySize + k)
    (hmono : L.Pairwise (fun a b => a.start < b.start))
    (hstart : ∀ s ∈ L, s.start ≠ 0) :
    renderList (recordAll L initState) = (L.drop k).reverse ∧
    ∀ j, j < k →
      L.getD j zeroSample ∉ renderList (recordAll L initState) ∧
      ∀ i, i < historySize →
        (recordAll L initState).samples.getD i zeroSample ≠
          L.getD j zeroSample := by
  have hrender : renderList (recordAll L initState) = (L.drop k).reverse := by
    rw [renderList_recordAll L hstart, List.take_reverse,
      show L.length - historySize = k from by omega]
  have hpair := List.pairwise_iff_getElem.mp hmono
  have hnotin_drop : ∀ j, j < k → L.getD j zeroSample ∉ L.drop k := by
    intro j hj hmem
    obtain ⟨m, hm, hget⟩ := List.getElem_of_mem hmem
    have hkm : k + m < L.length := by
      rw [List.length_drop] at hm
      omega
    rw [List.getElem_drop] at hget
    have hjlen : j < L.length := by omega
    rw [List.getD_eq_getElem L _ hjlen] at hget
    have hlt := hpair j (k + m) hjlen hkm (by omega)
    rw [hget] at hlt
    exact lt_irrefl _ hlt
  refine ⟨hrender, fun j hj => ⟨?_, ?_⟩⟩
  · rw [hrender, List.mem_reverse]
    exact hnotin_drop j hj
  · intro i hi heq
    have hinv := recordAll_inv L initState initState_inv.1 initState_inv.2
    have hfull : (renderWalk (recordAll L initState).samples
        (recordAll L initState).nextIndex historySize).length = historySize := by
      have hl : (renderList (recordAll L initState)).length = historySize := by
        rw [hrender, List.length_reverse, List.length_drop, hlen]
        omega
      rw [renderList] at hl
      exact hl
    have hmem := renderWalk_covers _ _ hinv.2 hfull i hi
    rw [← renderList, heq, hrender, List.mem_reverse] at hmem
    exact hnotin_drop j hj hmem

/-- `historySize + 1` concrete samples with strictly increasing non-zero
start timestamps. -/
def wideSamples : List Sample :=
  (List.range (historySize + 1)).map
    (fun (j : Nat) => ⟨(j : Int) + 1, 0, 0, 0, 0⟩)

theorem wraparound_drops_oldest_witness :
    renderList (recordAll wideSamples initState) = (wideSamples.drop 1).reverse ∧
    ∀ j, j < 1 →
      wideSamples.getD j zeroSample ∉ renderList (recordAll wideSamples initState) ∧
      ∀ i, i < historySize →
        (recordAll wideSamples initState).samples.getD i zeroSample ≠
          wideSamples.getD j zeroSample :=
  wraparound_drops_oldest wideSamples 1 le_rfl
    (by rw [wideSamples, List.length_map, List.length_range])
    (by
      rw [wideSamples, List.pairwise_map]
      exact (List.pairwise_lt_range _).imp (fun h => by dsimp only; omega))
    (by
      intro s hs
      rw [wideSamples, List.mem_map] at hs
      obtain ⟨j, _, rfl⟩ := hs
      dsimp only
      omega)

/-! ## C8: the record operation -/

/-- C8: `record` writes the sample into the slot at the cursor, advances
the cursor by one modulo `historySize`, leaves every other slot unchanged,
preserves the buffer length (it cannot fail), and keeps the cursor in
`[0, historySize)`. -/
theorem record_writes_cursor (s : Sample) (b : BufferState)
    (hlen : b.samples.length = historySize) (hidx : b.nextIndex < historySize) :
    (record s b).samples.getD b.nextIndex zeroSample = s ∧
    (record s b).nextIndex = (b.nextIndex + 1) % historySize ∧
    (∀ i, i ≠ b.nextIndex →
      (record s b).samples.getD i zeroSample = b.samples.getD i zeroSample) ∧
    (record s b).nextIndex < historySize ∧
    (record s b).samples.length = historySize := by
  refine ⟨getD_set_self _ _ _ _ (by rw [hlen]; exact hidx), rfl,
    fun i hi => getD_set_ne _ _ _ _ _ hi,
    record_nextIndex_lt s b, by rw [record_length, hlen]⟩

theorem record_writes_cursor_witness :
    (record ⟨1, 2, 3, 4, 5⟩ initState).samples.getD initState.nextIndex
        zeroSample = ⟨1, 2, 3, 4, 5⟩ ∧
    (record ⟨1, 2, 3, 4, 5⟩ initState).nextIndex =
      (initState.nextIndex + 1) % historySize ∧
    (∀ i, i ≠ initState.nextIndex →
      (record ⟨1, 2, 3, 4, 5⟩ initState).samples.getD i zeroSample =
        initState.samples.getD i zeroSample) ∧
    (record ⟨1, 2, 3, 4, 5⟩ initState).nextIndex < historySize ∧
    (record ⟨1, 2, 3, 4, 5⟩ initState).samples.length = historySize :=
  record_writes_cursor ⟨1, 2, 3, 4, 5⟩ initState (by decide) (by decide)

/-! ## C1, C9: highlighting in the output of `Samples` -/

/-- A concrete sample whose oversleep (20µs) exceeds the default 10µs
threshold. -/
def exSample : Sample := ⟨1, 20 * 1000, 0, 0, 0⟩

/-- Thresholds of one millisecond each, above every duration of
`exSample`. -/
def highThresholds : Thresholds :=
  ⟨1000 * 1000, 1000 * 1000, 1000 * 1000, 1000 * 1000⟩

/-- C1 counterexample: the output of `Samples` is not always free of
highlighting — after recording a sample whose oversleep exceeds the
default threshold, the table contains a row carrying the `" <---"`
marker. -/
theorem samples_highlight_counterexample :
    ∃ r ∈ SamplesRows defaultThresholds (record exSample initState),
      r.2 = " <---" := by decide

/-- C1 (amended): `Samples` renders the current buffer contents, and its
output is free of the over-threshold marker iff no rendered sample
exceeds the thresholds in force at render time. -/
theorem samples_unhighlighted_iff (t : Thresholds) (b : BufferState) :
    (∀ r ∈ SamplesRows t b, r.2 ≠ " <---") ↔
      ∀ s ∈ renderList b, overThreshold t s = false := by
  simp only [SamplesRows, List.mem_map, renderRow]
  constructor
  · intro h s hs
    have hr := h (s, if overThreshold t s then " <---" else "") ⟨s, hs, rfl⟩
    cases hov : overThreshold t s
    · rfl
    · rw [hov] at hr
      simp at hr
  · rintro h r ⟨s, hs, rfl⟩
    rw [h s hs]
    simp

/-- C9: a row of `Samples` carries the `" <---"` marker iff its sample is
over threshold at the thresholds in force when the table is rendered;
concretely, the same recorded buffer renders with the marker under the
default thresholds and without it under raised (1ms) thresholds. -/
theorem row_marker_iff_over_at_render (t : Thresholds) (b : BufferState) :
    (∀ r ∈ SamplesRows t b, (r.2 = " <---" ↔ overThreshold t r.1 = true)) ∧
    (∃ r ∈ SamplesRows defaultThresholds (record exSample initState),
      r.2 = " <---") ∧
    (∀ r ∈ SamplesRows highThresholds (record exSample initState),
      r.2 = "") := by
  refine ⟨?_, by decide, by decide⟩
  rintro r hr
  simp only [SamplesRows, List.mem_map, renderRow] at hr
  obtain ⟨s, hs, rfl⟩ := hr
  cases hov : overThreshold t s <;> simp [hov]

end Sched
